import Mathlib

/-!
Shallow embedding of `fb2epubru_dl.py`, a command-line catalog scraper, and
proofs about its scraping, pagination, search and download logic.

HTML documents are abstracted by the outcome of CSS selection: an anchor
element is modelled by its text content and `href` attribute, and each
selection step is a function from a page URL to the list of matched elements.
Python dictionaries are modelled as insertion-ordered association lists with
key overwrite, mirroring `dict` comprehension semantics.
-/

/-- An HTML anchor element, reduced to the fields the program reads. -/
structure Anchor where
  text : String
  href : String
deriving DecidableEq

/-- `string.whitespace` from the Python standard library. -/
def whitespace : List Char := [' ', '\t', '\n', '\x0b', '\x0c', '\r']

/-- Python `str.lower()`: lowercase each character of the string. -/
def pyLower (s : String) : String :=
  String.mk (s.data.map Char.toLower)

/-- Python `str.strip(chars)`: drop characters of `chars` from both ends. -/
def pyStrip (s : String) (chars : List Char) : String :=
  String.mk (((s.data.dropWhile (chars.contains ·)).reverse.dropWhile
    (chars.contains ·)).reverse)

/-- `Parser.findone`: given the list returned by `findall`, raise
`MultipleElementsFoundError(found)` when more than one element matched
(modelled by `Except.error found`), else `found[0] if found else None`. -/
def findone {α : Type} (found : List α) : Except (List α) (Option α) :=
  if found.length > 1 then Except.error found
  else Except.ok found.head?

/-- Python `dict` insertion: overwrite the value when the key is present,
otherwise append the pair, preserving insertion order. -/
def dictInsert (m : List (String × String)) (k v : String) :
    List (String × String) :=
  if m.any (fun p => p.1 == k) then
    m.map (fun p => if p.1 == k then (k, v) else p)
  else m ++ [(k, v)]

/-- Python `dict.get`: the value stored at the key, if any. -/
def dictGet (m : List (String × String)) (k : String) : Option String :=
  (m.find? (fun p => p.1 == k)).map Prod.snd

/-- `Parser.get_index`: `{a.text.lower(): a.get('href') for a in findall('#s1 a', '/')}`,
given the anchors the selector matched on the root page. -/
def get_index (anchors : List Anchor) : List (String × String) :=
  anchors.foldl (fun m a => dictInsert m (pyLower a.text) a.href) []

/-- The spec's claimed key set for `get_index`: the lowercased FIRST character
of each anchor's text (stated for comparison with `get_index`, which
lowercases the whole text). -/
def claimedIndexKeys (anchors : List Anchor) : List String :=
  anchors.map (fun a => pyLower (a.text.take 1))

/-- Title extraction in `Parser.get_book`:
`author.tail.strip(whitespace + '.')`. -/
def bookTitle (tail : String) : String :=
  pyStrip tail (whitespace ++ ['.'])

/-- Python truthiness of `e.text` for an element: `None` and the empty string
are falsy. -/
def textTruthy : Option String → Bool
  | none => false
  | some s => !s.isEmpty

/-- Description list in `Parser.get_book`:
`[e.text.strip() for e in findall('p', tree=elem) if e.text]`,
given the `text` of each `p` element in document order. -/
def descriptionEntries (ps : List (Option String)) : List String :=
  (ps.filter textTruthy).map (fun t => pyStrip (t.getD "") whitespace)

/-- `book['description'] = '\n'.join(description)`. -/
def bookDescription (ps : List (Option String)) : String :=
  String.intercalate "\n" (descriptionEntries ps)

/-- Substring test used to model the CSS `:contains(query)` filter. -/
def strContainsSub (hay needle : String) : Bool :=
  (List.range (hay.data.length + 1)).any
    (fun i => (hay.data.drop i).take needle.data.length == needle.data)

/-- The body of the generator `Parser.search`, forced: `query[0]` raises
`IndexError` on an empty query (`Except.error ()`); otherwise the lowercased
first letter is looked up in the index and, when it maps to a truthy URL,
that letter page's matching anchors are yielded as `(href, text)` pairs.
The result also records which letter pages were fetched. -/
def searchRun (index : List (String × String))
    (letterAnchors : String → List Anchor) (query : String) :
    Except Unit (List (String × String) × List String) :=
  if query.isEmpty then Except.error ()
  else
    let first_letter := pyLower (String.singleton query.front)
    match dictGet index first_letter with
    | none => Except.ok ([], [])
    | some url =>
      if url.isEmpty then Except.ok ([], [])
      else
        Except.ok
          (((letterAnchors url).filter (fun a => strContainsSub a.text query)).map
            (fun a => (a.href, a.text)), [url])

/-- Calling `Parser.search` only creates a generator: the body runs when the
sequence is iterated. Modelled as a thunk around `searchRun`. -/
def search (index : List (String × String))
    (letterAnchors : String → List Anchor) (query : String) :
    Unit → Except Unit (List (String × String) × List String) :=
  fun _ => searchRun index letterAnchors query

/-- `BookIterator.__iter__`: `count_pages = math.ceil(self.count / self.show_count) + 1`. -/
def count_pages (count show_count : ℕ) : ℕ :=
  Nat.ceil ((count : ℚ) / (show_count : ℚ)) + 1

/-- The page indices the iterator visits: `range(1, count_pages)` when
`self.count` is truthy, nothing otherwise. -/
def pagesToVisit (count show_count : ℕ) : List ℕ :=
  if count ≠ 0 then List.range' 1 (count_pages count show_count - 1) else []

/-- The listing-page URLs fetched by the iterator: `f'{self.base_url}-{i}'`. -/
def pageUrls (base_url : String) (count show_count : ℕ) : List String :=
  (pagesToVisit count show_count).map (fun i => base_url ++ "-" ++ toString i)

/-- The books yielded by `BookIterator.__iter__`: for each visited page, one
`get_book` result per anchor matched by `'#allEntries .My a'` on that page. -/
def iterBooks {β : Type} (base_url : String) (count show_count : ℕ)
    (pageAnchors : String → List Anchor) (get_book : String → β) : List β :=
  ((pageUrls base_url count show_count).map
    (fun u => (pageAnchors u).map (fun a => get_book a.href))).flatten

/-- Outcome of the match-selection step in `main`. -/
inductive SelectOutcome where
  | promptMenu : List (String × String) → SelectOutcome
  | direct : String → SelectOutcome
  | indexError : SelectOutcome
deriving DecidableEq

/-- The selection step of `main`: `if len(found) > 1: url = make_select_menu(found)
else: url = found[0][0]`, where `found[0]` on an empty tuple raises `IndexError`. -/
def selectBookUrl (found : List (String × String)) : SelectOutcome :=
  if found.length > 1 then SelectOutcome.promptMenu found
  else
    match found with
    | [] => SelectOutcome.indexError
    | p :: _ => SelectOutcome.direct p.1

/-- An HTTP response: status code and body bytes. -/
structure HttpResponse where
  status : ℕ
  content : List ℕ
deriving DecidableEq

/-- Split a list into consecutive chunks of `n` elements (the last one
shorter), modelling `resp.iter_content(chunk_size)`. -/
def chunksOf {α : Type} (n : ℕ) : List α → List (List α)
  | [] => []
  | x :: xs => (x :: xs).take n :: chunksOf n (xs.drop (n - 1))
termination_by l => l.length
decreasing_by
  simp only [List.length_drop, List.length_cons]
  omega

/-- `resp.iter_content(chunk_size)`. -/
def iter_content (resp : HttpResponse) (chunk_size : ℕ) : List (List ℕ) :=
  chunksOf chunk_size resp.content

/-- `download(url, path, chunk_size)`: write every chunk of the response body
to the file at `path` and return `path`. The result pairs the returned path
with the bytes written to the file; the status code is never consulted. -/
def download (resp : HttpResponse) (path : String) (chunk_size : ℕ) :
    String × List ℕ :=
  (path, (iter_content resp chunk_size).foldl (fun f chunk => f ++ chunk) [])

/-! ## Theorems -/

/-- C2: for every document and selector, `findone` returns the unique element
when exactly one matched, `None` when zero matched, and raises
`MultipleElementsFoundError` carrying the full matched sequence when two or
more matched. -/
theorem c2_findone_cases {α : Type} (found : List α) :
    (found = [] → findone found = Except.ok none) ∧
    (∀ x, found = [x] → findone found = Except.ok (some x)) ∧
    (2 ≤ found.length → findone found = Except.error found) := by
  refine ⟨?_, ?_, ?_⟩
  · rintro rfl; rfl
  · rintro x rfl; rfl
  · intro h
    unfold findone
    rw [if_pos (by omega)]

/-- Witness for C2 at concrete inputs of each shape. -/
theorem c2_findone_cases_witness :
    findone ([] : List ℕ) = Except.ok none ∧
    findone [7] = Except.ok (some 7) ∧
    findone [1, 2] = Except.error [1, 2] :=
  ⟨(c2_findone_cases ([] : List ℕ)).1 rfl,
   (c2_findone_cases [7]).2.1 7 rfl,
   (c2_findone_cases [1, 2]).2.2 (by decide)⟩

/-- C3: when the parsed `total_count` is `0`, the iterator visits no pages,
fetches no listing URLs and yields no books. -/
theorem c3_zero_count {β : Type} (base_url : String) (count show_count : ℕ)
    (pageAnchors : String → List Anchor) (get_book : String → β)
    (hc : count = 0) :
    pagesToVisit count show_count = [] ∧
    pageUrls base_url count show_count = [] ∧
    iterBooks base_url count show_count pageAnchors get_book = [] := by
  subst hc
  simp [pagesToVisit, pageUrls, iterBooks]

/-- Witness for C3: a concrete iterator whose pages would not be empty. -/
theorem c3_zero_count_witness :
    pagesToVisit 0 20 = [] ∧ pageUrls "x" 0 20 = [] ∧
    iterBooks "x" 0 20 (fun _ => [⟨"t", "/h"⟩]) (fun h => h) = [] :=
  c3_zero_count "x" 0 20 (fun _ => [⟨"t", "/h"⟩]) (fun h => h) rfl

/-- C8: in `main`, exactly one search match selects that match's URL with no
interactive prompt; zero matches hit `found[0]` on an empty tuple, an
uncaught out-of-bounds error; more than one match opens the menu. -/
theorem c8_select_step (found : List (String × String)) :
    (∀ p, found = [p] → selectBookUrl found = SelectOutcome.direct p.1) ∧
    (found = [] → selectBookUrl found = SelectOutcome.indexError) ∧
    (2 ≤ found.length → selectBookUrl found = SelectOutcome.promptMenu found) := by
  refine ⟨?_, ?_, ?_⟩
  · rintro p rfl; rfl
  · rintro rfl; rfl
  · intro h
    unfold selectBookUrl
    rw [if_pos (by omega)]

/-- Witness for C8 at concrete match lists. -/
theorem c8_select_step_witness :
    selectBookUrl [("/u", "t")] = SelectOutcome.direct "/u" ∧
    selectBookUrl [] = SelectOutcome.indexError ∧
    selectBookUrl [("/u", "t"), ("/v", "s")] =
      SelectOutcome.promptMenu [("/u", "t"), ("/v", "s")] :=
  ⟨(c8_select_step [("/u", "t")]).1 ("/u", "t") rfl,
   (c8_select_step []).2.1 rfl,
   (c8_select_step [("/u", "t"), ("/v", "s")]).2.2 (by decide)⟩

/-- C9: calling `search` merely builds the generator (forcing the thunk is
what runs the body); the forced body fails with the `query[0]` index error
exactly on the empty query, and for every non-empty query it returns
normally. -/
theorem c9_search_lazy (index : List (String × String))
    (letterAnchors : String → List Anchor) (query : String) :
    (search index letterAnchors query () = searchRun index letterAnchors query) ∧
    (searchRun index letterAnchors "" = Except.error ()) ∧
    (query.isEmpty = false →
      ∃ r, searchRun index letterAnchors query = Except.ok r) := by
  refine ⟨rfl, rfl, ?_⟩
  intro hq
  unfold searchRun
  rw [hq]
  simp only [Bool.false_eq_true, if_false]
  split
  · exact ⟨_, rfl⟩
  · split
    · exact ⟨_, rfl⟩
    · exact ⟨_, rfl⟩

/-- Witness for C9 at a concrete index and query. -/
theorem c9_search_lazy_witness :
    (search [("a", "/u")] (fun _ => []) "q" () =
      searchRun [("a", "/u")] (fun _ => []) "q") ∧
    searchRun [("a", "/u")] (fun _ => []) "" = Except.error () ∧
    ∃ r, searchRun [("a", "/u")] (fun _ => []) "q" = Except.ok r :=
  ⟨(c9_search_lazy [("a", "/u")] (fun _ => []) "q").1,
   (c9_search_lazy [("a", "/u")] (fun _ => []) "q").2.1,
   (c9_search_lazy [("a", "/u")] (fun _ => []) "q").2.2 (by decide)⟩

/-- C7: a non-empty query whose lowercased first letter is not an index key
makes `search` produce an empty sequence, with no error and no letter-page
fetch. -/
theorem c7_search_missing_letter (index : List (String × String))
    (letterAnchors : String → List Anchor) (query : String)
    (hq : query.isEmpty = false)
    (hk : dictGet index (pyLower (String.singleton query.front)) = none) :
    searchRun index letterAnchors query = Except.ok ([], []) := by
  unfold searchRun
  rw [hq]
  simp only [Bool.false_eq_true, if_false, hk]

/-- Witness for C7: index has only letter `a`, query starts with `B`. -/
theorem c7_search_missing_letter_witness :
    searchRun [("a", "/u")] (fun _ => [⟨"T", "/h"⟩]) "Bk" = Except.ok ([], []) :=
  c7_search_missing_letter [("a", "/u")] (fun _ => [⟨"T", "/h"⟩]) "Bk"
    (by decide) (by decide)

/-- C1: for `total_count > 0` the iterator computes
`count_pages = ceil(total_count / shown_per_page) + 1` and fetches exactly
the suffixed pages `{base_url}-i` for `i` from `1` to `count_pages - 1`
inclusive, in increasing order; for `total_count = 45`, `shown_per_page = 20`
this is `count_pages = 4` and pages `-1` through `-3`. -/
theorem c1_pagination (count show_count : ℕ) (hc : 0 < count)
    (hs : 0 < show_count) :
    count_pages count show_count = Nat.ceil ((count : ℚ) / show_count) + 1 ∧
    pagesToVisit count show_count =
      List.range' 1 (count_pages count show_count - 1) ∧
    (∀ i, i ∈ pagesToVisit count show_count ↔
      1 ≤ i ∧ i ≤ Nat.ceil ((count : ℚ) / show_count)) ∧
    (pagesToVisit count show_count).Pairwise (· < ·) ∧
    count_pages 45 20 = 4 ∧
    pageUrls "B" 45 20 = ["B-1", "B-2", "B-3"] := by
  have hrange : pagesToVisit count show_count =
      List.range' 1 (count_pages count show_count - 1) := by
    simp [pagesToVisit, hc.ne']
  have hceil : count_pages count show_count - 1 =
      Nat.ceil ((count : ℚ) / show_count) := by
    simp [count_pages]
  have h3 : Nat.ceil ((45 : ℚ) / 20) = 3 := by
    rw [Nat.ceil_eq_iff (by norm_num)]
    norm_num
  have h45 : count_pages 45 20 = 4 := by
    have hcast : ((45 : ℕ) : ℚ) / ((20 : ℕ) : ℚ) = (45 : ℚ) / 20 := by
      norm_num
    rw [count_pages, hcast, h3]
  have hv : pagesToVisit 45 20 = [1, 2, 3] := by
    rw [pagesToVisit, if_pos (by decide), h45]
    rfl
  refine ⟨hceil ▸ rfl, hrange, ?_, ?_, h45, ?_⟩
  · intro i
    rw [hrange, List.mem_range'_1, hceil]
    omega
  · rw [hrange]
    exact List.pairwise_lt_range' 1 (count_pages count show_count - 1)
  · rw [pageUrls, hv]
    decide

/-- Witness for C1 at the spec's own numbers. -/
theorem c1_pagination_witness :
    count_pages 45 20 = Nat.ceil ((45 : ℚ) / 20) + 1 ∧
    pagesToVisit 45 20 = List.range' 1 (count_pages 45 20 - 1) ∧
    (∀ i, i ∈ pagesToVisit 45 20 ↔ 1 ≤ i ∧ i ≤ Nat.ceil ((45 : ℚ) / 20)) ∧
    (pagesToVisit 45 20).Pairwise (· < ·) ∧
    count_pages 45 20 = 4 ∧
    pageUrls "B" 45 20 = ["B-1", "B-2", "B-3"] := by
  have h := c1_pagination 45 20 (by decide) (by decide)
  exact_mod_cast h

/-- Left fold of list append starting from an accumulator is the accumulator
followed by the flattening. -/
theorem foldl_append_eq_flatten {α : Type} (chunks : List (List α))
    (acc : List α) :
    chunks.foldl (fun f chunk => f ++ chunk) acc = acc ++ chunks.flatten := by
  induction chunks generalizing acc with
  | nil => simp
  | cons c cs ih =>
    simp only [List.foldl_cons, List.flatten_cons, ih, List.append_assoc]

/-- Chunking with a positive chunk size loses no bytes. -/
theorem flatten_chunksOf {α : Type} (n : ℕ) (h : 0 < n) :
    ∀ l : List α, (chunksOf n l).flatten = l
  | [] => by rw [chunksOf]; rfl
  | x :: xs => by
    rw [chunksOf, List.flatten_cons, flatten_chunksOf n h (xs.drop (n - 1))]
    have hdrop : xs.drop (n - 1) = (x :: xs).drop n := by
      cases n with
      | zero => exact absurd h (by omega)
      | succ m => simp
    rw [hdrop, List.take_append_drop]
termination_by l => l.length
decreasing_by
  simp only [List.length_drop, List.length_cons]
  omega

/-- C10: `download` writes exactly the response body bytes to the path, in
chunks, and returns the path, for every status code — the status is never
inspected, so an HTTP error response still produces a file holding the error
body. -/
theorem c10_download (status : ℕ) (content : List ℕ) (path : String)
    (chunk_size : ℕ) (h : 0 < chunk_size) :
    download ⟨status, content⟩ path chunk_size = (path, content) := by
  unfold download iter_content
  rw [foldl_append_eq_flatten, List.nil_append,
    flatten_chunksOf chunk_size h content]

/-- Witness for C10: a 404 response still gets its body written in full. -/
theorem c10_download_witness :
    download ⟨404, [1, 2, 3, 4, 5]⟩ "f" 2 = ("f", [1, 2, 3, 4, 5]) :=
  c10_download 404 [1, 2, 3, 4, 5] "f" 2 (by decide)

/-- The head of what `dropWhile` keeps does not satisfy the predicate. -/
theorem head?_dropWhile_false {α : Type} (p : α → Bool) (l : List α) (c : α)
    (h : (l.dropWhile p).head? = some c) : p c = false := by
  have hall := List.head?_dropWhile_not p l
  rw [h] at hall
  exact hall

/-- Every element of a `takeWhile` satisfies the predicate. -/
theorem mem_takeWhile_sat {α : Type} (p : α → Bool) (l : List α) (c : α)
    (h : c ∈ l.takeWhile p) : p c = true := by
  have hall := List.all_takeWhile (l := l) (p := p)
  exact List.all_eq_true.mp hall c h

/-- A character with a false `contains` test is not a member. -/
theorem contains_false_not_mem {c : Char} {chars : List Char}
    (h : chars.contains c = false) : c ∉ chars := by
  intro hmem
  rw [show chars.contains c = chars.elem c from rfl, List.elem_eq_mem,
    decide_eq_false_iff_not] at h
  exact h hmem

/-- `pyStrip` removes a block of strippable characters from each end and
stops there: the remainder is a contiguous piece of the input whose first
and last characters (when present) are not strippable. -/
theorem pyStrip_spec (s : String) (chars : List Char) :
    ∃ pre post,
      s.data = pre ++ (pyStrip s chars).data ++ post ∧
      (∀ c ∈ pre, c ∈ chars) ∧ (∀ c ∈ post, c ∈ chars) ∧
      (∀ c, (pyStrip s chars).data.head? = some c → c ∉ chars) ∧
      (∀ c, (pyStrip s chars).data.getLast? = some c → c ∉ chars) := by
  set p : Char → Bool := (chars.contains ·) with hp
  set A := s.data with hA
  set step1 := A.dropWhile p with hs1
  set step2 := step1.reverse.dropWhile p with hs2
  have hres : (pyStrip s chars).data = step2.reverse := rfl
  have hsplit1 : A = A.takeWhile p ++ step1 :=
    (List.takeWhile_append_dropWhile p A).symm
  have hsplit2 : step1.reverse = step1.reverse.takeWhile p ++ step2 :=
    (List.takeWhile_append_dropWhile p step1.reverse).symm
  have hstep1 : step1 = step2.reverse ++ (step1.reverse.takeWhile p).reverse := by
    calc step1 = step1.reverse.reverse := (List.reverse_reverse step1).symm
    _ = (step1.reverse.takeWhile p ++ step2).reverse := by rw [← hsplit2]
    _ = step2.reverse ++ (step1.reverse.takeWhile p).reverse := by
        rw [List.reverse_append]
  refine ⟨A.takeWhile p, (step1.reverse.takeWhile p).reverse, ?_, ?_, ?_, ?_, ?_⟩
  · rw [hres, List.append_assoc, ← hstep1]
    exact hsplit1
  · intro c hc
    have := mem_takeWhile_sat p A c hc
    by_contra hmem
    rw [hp] at this
    simp only [List.elem_eq_mem, decide_eq_true_eq,
      show chars.contains c = chars.elem c from rfl] at this
    exact hmem this
  · intro c hc
    rw [List.mem_reverse] at hc
    have := mem_takeWhile_sat p step1.reverse c hc
    by_contra hmem
    rw [hp] at this
    simp only [List.elem_eq_mem, decide_eq_true_eq,
      show chars.contains c = chars.elem c from rfl] at this
    exact hmem this
  · intro c hc
    rw [hres, List.head?_reverse] at hc
    have h1 : step1.reverse.getLast? = some c := by
      rw [hsplit2, List.getLast?_append, hc]
      rfl
    rw [List.getLast?_reverse] at h1
    exact contains_false_not_mem (head?_dropWhile_false p A c h1)
  · intro c hc
    rw [hres, List.getLast?_reverse] at hc
    exact contains_false_not_mem (head?_dropWhile_false p step1.reverse c hc)

/-- C5: title extraction strips any run of whitespace and `'.'` characters
from both ends of the trailing text node — the remainder is a contiguous
piece of the input bounded by non-strippable characters — and on
`" Some Title.. "` it yields `"Some Title"`. -/
theorem c5_title_strip (s : String) :
    bookTitle " Some Title.. " = "Some Title" ∧
    ∃ pre post,
      s.data = pre ++ (bookTitle s).data ++ post ∧
      (∀ c ∈ pre, c ∈ whitespace ++ ['.']) ∧
      (∀ c ∈ post, c ∈ whitespace ++ ['.']) ∧
      (∀ c, (bookTitle s).data.head? = some c → c ∉ whitespace ++ ['.']) ∧
      (∀ c, (bookTitle s).data.getLast? = some c → c ∉ whitespace ++ ['.']) :=
  ⟨by decide, pyStrip_spec s (whitespace ++ ['.'])⟩

/-- C6 counterexample: a paragraph whose text is the whitespace-only string
`" "` has non-empty text, so it is kept, and its stripped text is the empty
string — an empty entry does appear in the joined result, contradicting the
claim's "no empty entries appear". -/
theorem c6_description_counterexample :
    descriptionEntries [some "a", some " "] = ["a", ""] ∧
    "" ∈ descriptionEntries [some "a", some " "] ∧
    bookDescription [some "a", some " "] = "a\n" :=
  ⟨by decide, by decide, by decide⟩

/-- C6 amended: the description is the newline-join of the whitespace-stripped
text of exactly those paragraphs whose raw text is present and non-empty, in
document order; a kept entry may still be the empty string when the raw text
was whitespace-only. -/
theorem c6_description_amended (ps : List (Option String)) :
    descriptionEntries ps = ps.filterMap (fun t =>
      match t with
      | none => none
      | some s => if s.isEmpty then none else some (pyStrip s whitespace)) ∧
    bookDescription ps = String.intercalate "\n" (descriptionEntries ps) := by
  refine ⟨?_, rfl⟩
  induction ps with
  | nil => rfl
  | cons t ps ih =>
    cases t with
    | none =>
      simpa [descriptionEntries, List.filter_cons, textTruthy,
        List.filterMap_cons] using ih
    | some s =>
      by_cases hs : s.isEmpty
      · simpa [descriptionEntries, List.filter_cons, textTruthy, hs,
          List.filterMap_cons] using ih
      · simpa [descriptionEntries, List.filter_cons, textTruthy, hs,
          List.filterMap_cons] using ih

/-- Looking up a key in a map whose key-`k` entries were overwritten with
`(k, v)`. -/
theorem find?_map_overwrite (m : List (String × String)) (k v k' : String) :
    ((m.map (fun p => if p.1 == k then (k, v) else p)).find?
        (fun p => p.1 == k')) =
      if k' = k then (m.find? (fun p => p.1 == k)).map (fun _ => (k, v))
      else m.find? (fun p => p.1 == k') := by
  induction m with
  | nil => split <;> rfl
  | cons q m ih =>
    by_cases h1 : q.1 = k
    · by_cases h2 : k' = k
      · simp [List.find?_cons, h1, h2, beq_iff_eq, -List.find?_map]
      · have h3 : ¬ q.1 = k' := fun h => h2 ((h1 ▸ h : q.1 = k').symm ▸ h1)
        have hb : (k == k') = false := beq_eq_false_iff_ne.mpr (fun h => h2 h.symm)
        simp only [h2, if_neg, not_false_iff, ite_false] at ih
        simp [beq_iff_eq, -List.find?_map] at ih ⊢
        simp [List.find?_cons, h1, h2, h3, hb, beq_iff_eq, ih, -List.find?_map]
    · by_cases h2 : k' = k
      · have h3 : ¬ q.1 = k' := fun h => h1 (h2 ▸ h)
        simp only [h2, ite_true] at ih
        simp [beq_iff_eq, -List.find?_map] at ih ⊢
        simp [List.find?_cons, h1, h2, h3, beq_iff_eq, ih, -List.find?_map]
      · by_cases h3 : q.1 = k'
        · simp [List.find?_cons, h1, h2, h3, beq_iff_eq, -List.find?_map]
        · simp only [h2, if_neg, not_false_iff, ite_false] at ih
          simp [beq_iff_eq, -List.find?_map] at ih ⊢
          simp [List.find?_cons, h1, h2, h3, beq_iff_eq, ih, -List.find?_map]

/-- `dictGet` after `dictInsert`: the inserted key reads back the new value,
every other key is untouched. -/
theorem dictGet_dictInsert (m : List (String × String)) (k v k' : String) :
    dictGet (dictInsert m k v) k' = if k' = k then some v else dictGet m k' := by
  unfold dictInsert dictGet
  by_cases hany : (m.any (fun p => p.1 == k)) = true
  · rw [if_pos hany, find?_map_overwrite]
    by_cases h2 : k' = k
    · rw [if_pos h2, if_pos h2]
      rcases Option.isSome_iff_exists.mp
        (List.find?_isSome.mpr (List.any_eq_true.mp hany)) with ⟨w, hw⟩
      rw [hw]
      rfl
    · rw [if_neg h2, if_neg h2]
  · rw [if_neg hany, List.find?_append]
    have hnone : m.find? (fun p => p.1 == k) = none := by
      rw [List.find?_eq_none]
      intro x hx hpx
      exact hany (List.any_eq_true.mpr ⟨x, hx, hpx⟩)
    by_cases h2 : k' = k
    · subst h2
      rw [hnone]
      simp [List.find?_cons]
    · rw [if_neg h2]
      have hsingle : ([(k, v)].find? (fun p => p.1 == k')) = none := by
        rw [List.find?_eq_none]
        intro x hx hpx
        rw [List.mem_singleton] at hx
        subst hx
        rw [beq_iff_eq] at hpx
        exact h2 hpx.symm
      rw [hsingle, Option.or_none]

/-- C4 amended: the keys of `get_index` are exactly the lowercased WHOLE
texts of the index-page anchors (not just their first characters), each key
mapped to the href of the last anchor with that lowercased text. -/
theorem c4_index_amended (anchors : List Anchor) (k : String) :
    dictGet (get_index anchors) k =
      ((anchors.filter (fun a => pyLower a.text == k)).map Anchor.href).getLast? ∧
    ((dictGet (get_index anchors) k).isSome ↔
      ∃ a ∈ anchors, pyLower a.text = k) := by
  have main : ∀ k', dictGet (get_index anchors) k' =
      ((anchors.filter (fun a => pyLower a.text == k')).map
        Anchor.href).getLast? := by
    induction anchors using List.reverseRecOn with
    | nil => intro k'; rfl
    | append_singleton as a ih =>
      intro k'
      have hgi : get_index (as ++ [a]) =
          dictInsert (get_index as) (pyLower a.text) a.href := by
        simp [get_index, List.foldl_append]
      rw [hgi, dictGet_dictInsert, List.filter_append, List.map_append,
        List.getLast?_append]
      by_cases h2 : k' = pyLower a.text
      · rw [if_pos h2]
        have hfa : List.filter (fun a' => pyLower a'.text == k') [a] = [a] := by
          simp [List.filter_cons, beq_iff_eq, h2]
        rw [hfa]
        rfl
      · rw [if_neg h2]
        have hfa : List.filter (fun a' => pyLower a'.text == k') [a] = [] := by
          simp [List.filter_cons, beq_iff_eq]
          exact fun h => h2 h.symm
        rw [hfa]
        simp [ih]
  refine ⟨main k, ?_⟩
  rw [main k, List.getLast?_isSome]
  constructor
  · intro h
    by_contra hno
    push_neg at hno
    apply h
    rw [List.map_eq_nil_iff, List.filter_eq_nil_iff]
    intro a ha
    rw [beq_iff_eq]
    exact fun hk => hno a ha hk
  · rintro ⟨a, ha, hk⟩ hnil
    rw [List.map_eq_nil_iff, List.filter_eq_nil_iff] at hnil
    exact hnil a ha (by rw [beq_iff_eq]; exact hk)

/-- C4 counterexample: an anchor with text `"AB"` yields the key `"ab"`
(the lowercased whole text), while the claim names the lowercased first
character `"a"`, which is not a key of the mapping. -/
theorem c4_index_counterexample :
    (get_index [⟨"AB", "/x"⟩]).map Prod.fst = ["ab"] ∧
    claimedIndexKeys [⟨"AB", "/x"⟩] = ["a"] ∧
    (get_index [⟨"AB", "/x"⟩]).map Prod.fst ≠ claimedIndexKeys [⟨"AB", "/x"⟩] ∧
    dictGet (get_index [⟨"AB", "/x"⟩]) "a" = none :=
  ⟨by decide, by decide, by decide, by decide⟩
